import Mathlib

/-!
Verification of the file2afsk link-layer codec and frame-reassembly engine
(`tx.py` and `rx.py`), as a shallow embedding in Lean 4.

Byte strings are modelled as `List Nat` (each element a byte value); Python
strings appearing in the receiver (file identifiers, callsigns, filenames)
are modelled as lists of character code points, also `List Nat`.
-/

namespace File2afsk

/-! ## KISS constants (tx.py lines 71-74, rx.py lines 43-46) -/

def FEND : Nat := 0xC0

def FESC : Nat := 0xDB

def TFEND : Nat := 0xDC

def TFESC : Nat := 0xDD

/-! ## Framing codec

`kiss_escape` (tx.py lines 76-79) is two successive applications of Python
`bytes.replace` with a single-byte needle; `pyReplaceByte` models
`data.replace(bytes([pat]), rep)`. -/

def pyReplaceByte (pat : Nat) (rep : List Nat) : List Nat → List Nat
  | [] => []
  | b :: rest => (if b = pat then rep else [b]) ++ pyReplaceByte pat rep rest

def kiss_escape (data : List Nat) : List Nat :=
  pyReplaceByte FEND [FESC, TFEND] (pyReplaceByte FESC [FESC, TFESC] data)

/-- Model of `unescape_kiss` (rx.py lines 48-63): left-to-right scan; an escape byte
consumes the following byte, emitting the original value for the two known
substitutes and nothing for an unknown substitute; a trailing escape byte
with no following byte is dropped (the `break`). The Python `while` loop
advances by two positions after an escape byte and by one otherwise, which
is exactly the pattern split below. -/
def unescape_kiss : List Nat → List Nat
  | [] => []
  | [b] => if b = FESC then [] else [b]
  | b :: c :: rest =>
    if b = FESC then
      (if c = TFESC then [FESC] else if c = TFEND then [FEND] else []) ++ unescape_kiss rest
    else b :: unescape_kiss (c :: rest)

/-- Checks that a byte sequence contains no bare frame-delimiter byte (0xC0)
and that every escape byte (0xDB) occurs only as the first byte of a
two-byte escape sequence (0xDB 0xDC or 0xDB 0xDD). -/
def noBareSpecial : List Nat → Bool
  | [] => true
  | [b] => if b = FEND then false else if b = FESC then false else true
  | b :: c :: rest =>
    if b = FEND then false
    else if b = FESC then (c = TFEND || c = TFESC) && noBareSpecial rest
    else noBareSpecial (c :: rest)

theorem unescape_cons_ne (b : Nat) (l : List Nat) (h : ¬ b = FESC) :
    unescape_kiss (b :: l) = b :: unescape_kiss l := by
  cases l <;> simp [unescape_kiss, h]

theorem unescape_fesc_cons (c : Nat) (l : List Nat) :
    unescape_kiss (FESC :: c :: l) =
      (if c = TFESC then [FESC] else if c = TFEND then [FEND] else []) ++ unescape_kiss l := by
  simp [unescape_kiss]

theorem noBareSpecial_cons_ne (b : Nat) (l : List Nat) (h1 : ¬ b = FEND) (h2 : ¬ b = FESC) :
    noBareSpecial (b :: l) = noBareSpecial l := by
  cases l <;> simp [noBareSpecial, h1, h2]

theorem noBareSpecial_fesc_cons (c : Nat) (l : List Nat) :
    noBareSpecial (FESC :: c :: l) = ((c = TFEND || c = TFESC) && noBareSpecial l) := by
  have h : ¬ FESC = FEND := by decide
  simp [noBareSpecial, h]

theorem pyReplaceByte_append (pat : Nat) (rep : List Nat) (l1 l2 : List Nat) :
    pyReplaceByte pat rep (l1 ++ l2) = pyReplaceByte pat rep l1 ++ pyReplaceByte pat rep l2 := by
  induction l1 with
  | nil => rfl
  | cons b rest ih => simp [pyReplaceByte, ih]

/-- One byte of escaping: 0xDB becomes 0xDB 0xDD, 0xC0 becomes 0xDB 0xDC,
every other byte passes through. -/
def escByte (b : Nat) : List Nat :=
  if b = FESC then [FESC, TFESC] else if b = FEND then [FESC, TFEND] else [b]

theorem kiss_escape_nil : kiss_escape [] = [] := rfl

theorem kiss_escape_cons (b : Nat) (l : List Nat) :
    kiss_escape (b :: l) = escByte b ++ kiss_escape l := by
  by_cases h1 : b = FESC
  · subst h1
    simp [kiss_escape, pyReplaceByte, escByte, pyReplaceByte_append, FESC, FEND, TFESC]
  · by_cases h2 : b = FEND
    · subst h2
      simp [kiss_escape, pyReplaceByte, escByte, pyReplaceByte_append, FESC, FEND]
    · simp [kiss_escape, pyReplaceByte, escByte, pyReplaceByte_append, h1, h2]

theorem unescape_escape (l : List Nat) : unescape_kiss (kiss_escape l) = l := by
  induction l with
  | nil => rfl
  | cons b rest ih =>
    rw [kiss_escape_cons]
    by_cases h1 : b = FESC
    · subst h1
      have he : escByte FESC = [FESC, TFESC] := by simp [escByte]
      rw [he, List.cons_append, List.cons_append, List.nil_append, unescape_fesc_cons, ih]
      simp
    · by_cases h2 : b = FEND
      · subst h2
        have he : escByte FEND = [FESC, TFEND] := by
          have : ¬ FEND = FESC := by decide
          simp [escByte, this]
        have ht : ¬ TFEND = TFESC := by decide
        rw [he, List.cons_append, List.cons_append, List.nil_append, unescape_fesc_cons, ih]
        simp [ht]
      · have he : escByte b = [b] := by simp [escByte, h1, h2]
        rw [he, List.cons_append, List.nil_append, unescape_cons_ne b _ h1, ih]

theorem noBareSpecial_escape (l : List Nat) : noBareSpecial (kiss_escape l) = true := by
  induction l with
  | nil => rfl
  | cons b rest ih =>
    rw [kiss_escape_cons]
    by_cases h1 : b = FESC
    · subst h1
      have he : escByte FESC = [FESC, TFESC] := by simp [escByte]
      rw [he, List.cons_append, List.cons_append, List.nil_append, noBareSpecial_fesc_cons, ih]
      simp
    · by_cases h2 : b = FEND
      · subst h2
        have he : escByte FEND = [FESC, TFEND] := by
          have : ¬ FEND = FESC := by decide
          simp [escByte, this]
        rw [he, List.cons_append, List.cons_append, List.nil_append, noBareSpecial_fesc_cons, ih]
        simp
      · have he : escByte b = [b] := by simp [escByte, h1, h2]
        rw [he, List.cons_append, List.nil_append, noBareSpecial_cons_ne b _ h2 h1, ih]

/-- C1: For every byte sequence `b`, `unescape_kiss (kiss_escape b) = b`, and
the output of `kiss_escape` never contains the bare frame-delimiter byte 0xC0
nor a bare escape byte 0xDB other than as the first byte of a two-byte escape
sequence. -/
theorem C1_escape_roundtrip (b : List Nat) :
    unescape_kiss (kiss_escape b) = b ∧ noBareSpecial (kiss_escape b) = true :=
  ⟨unescape_escape b, noBareSpecial_escape b⟩

theorem unescape_append_fesc : ∀ p : List Nat, unescape_kiss (p ++ [FESC]) = unescape_kiss p
  | [] => by simp [unescape_kiss]
  | [b] => by
    by_cases hb : b = FESC
    · subst hb
      have h1 : ¬ FESC = TFESC := by decide
      have h2 : ¬ FESC = TFEND := by decide
      simp [unescape_kiss, h1, h2]
    · simp [unescape_kiss, hb]
  | b :: c :: rest => by
    by_cases hb : b = FESC
    · subst hb
      have ih := unescape_append_fesc rest
      rw [List.cons_append, List.cons_append, unescape_fesc_cons, unescape_fesc_cons, ih]
    · have ih := unescape_append_fesc (c :: rest)
      rw [List.cons_append, unescape_cons_ne b _ hb, unescape_cons_ne b _ hb, ih]

/-- C9: For every byte sequence ending in the escape byte 0xDB with no
following byte, `unescape_kiss` silently drops the trailing escape byte and
returns the unescaped remainder of the input; being a total Lean function, it
raises no error on any input. -/
theorem C9_trailing_escape_dropped (p : List Nat) :
    unescape_kiss (p ++ [FESC]) = unescape_kiss p :=
  unescape_append_fesc p

/-! ## Address codec

`ax25_address` (tx.py lines 81-88) packs a label into 7 bytes; the receive
loop (rx.py lines 171-172) unpacks the first 6 bytes of an address field with
`chr(c >> 1)` and Python `str.strip()`. -/

/-- Python `s.ljust(n)`: pad on the right with spaces to length `n`. -/
def pyLjust (n : Nat) (l : List Nat) : List Nat :=
  l ++ List.replicate (n - l.length) 32

/-- Python `s.upper()` restricted to the byte range: lowercase ASCII letters
are mapped to uppercase, everything else is unchanged. -/
def pyUpper (l : List Nat) : List Nat :=
  l.map (fun c => if 97 ≤ c ∧ c ≤ 122 then c - 32 else c)

/-- Python `str.isspace()` on the code points reachable from `chr(byte >> 1)`
(all below 128): tab, LF, VT, FF, CR, the four separator controls 0x1C-0x1F,
and space. -/
def isPySpace (c : Nat) : Bool :=
  c = 9 || c = 10 || c = 11 || c = 12 || c = 13 || c = 28 || c = 29 || c = 30 || c = 31 || c = 32

/-- Python `str.strip()`: remove leading and trailing whitespace. -/
def pyStrip (l : List Nat) : List Nat :=
  (((l.dropWhile isPySpace).reverse.dropWhile isPySpace)).reverse

/-- Model of `ax25_address` (tx.py lines 81-88): pad/uppercase/truncate the callsign
to 6 characters plus one space, shift each of the 6 characters left one bit,
and append the SSID byte `(ord(call_padded[6]) << 1) | 0x60`, with the low
bit set when this is the last address. -/
def ax25_address (call : List Nat) (last : Bool) : List Nat :=
  let call_padded := (pyUpper (pyLjust 6 call)).take 6 ++ [32]
  let addr := (call_padded.take 6).map (fun c => c * 2)
  let ssid0 := (call_padded.getD 6 0) * 2 ||| 0x60
  let ssid := if last then ssid0 ||| 1 else ssid0
  addr ++ [ssid]

/-- Address decoding (rx.py lines 171-172):
`''.join(chr(c >> 1) for c in field[:6]).strip()`. -/
def decodeAddr (field : List Nat) : List Nat :=
  pyStrip ((field.take 6).map (fun c => c / 2))

/-- The decode step as the written specification describes it: right-shift
the first 6 bytes and trim only trailing whitespace. Modelled from the
spec's words for comparison with `decodeAddr`; the source applies Python
`str.strip()`, which trims both ends. -/
def decodeAddrTrailingOnly (field : List Nat) : List Nat :=
  ((((field.take 6).map (fun c => c / 2)).reverse.dropWhile isPySpace)).reverse

/-- An uppercase ASCII letter or a digit. -/
def isUpperAlnum (c : Nat) : Bool :=
  (65 ≤ c && c ≤ 90) || (48 ≤ c && c ≤ 57)

theorem pyStrip_of_no_space (l : List Nat) (h : ∀ x ∈ l, isPySpace x = false) :
    pyStrip l = l := by
  have h1 : l.dropWhile isPySpace = l := by
    cases l with
    | nil => rfl
    | cons a t =>
      rw [List.dropWhile_cons_of_neg]
      simp [h a (by simp)]
  have h2 : l.reverse.dropWhile isPySpace = l.reverse := by
    cases hr : l.reverse with
    | nil => rfl
    | cons a t =>
      rw [List.dropWhile_cons_of_neg]
      have ha : a ∈ l := by
        have : a ∈ l.reverse := by rw [hr]; simp
        simpa using this
      simp [h a ha]
  rw [pyStrip, h1, h2, List.reverse_reverse]

theorem isUpperAlnum_range (c : Nat) (h : isUpperAlnum c = true) :
    (65 ≤ c ∧ c ≤ 90) ∨ (48 ≤ c ∧ c ≤ 57) := by
  rw [isUpperAlnum, Bool.or_eq_true, Bool.and_eq_true, Bool.and_eq_true] at h
  rcases h with ⟨h1, h2⟩ | ⟨h1, h2⟩
  · exact Or.inl ⟨of_decide_eq_true h1, of_decide_eq_true h2⟩
  · exact Or.inr ⟨of_decide_eq_true h1, of_decide_eq_true h2⟩

theorem isUpperAlnum_not_space (c : Nat) (h : isUpperAlnum c = true) :
    isPySpace c = false := by
  have := isUpperAlnum_range c h
  rw [isPySpace]
  simp only [Bool.or_eq_false_iff, decide_eq_false_iff_not]
  omega

/-- C7: For every 6-character label of uppercase ASCII letters and digits and
every flag, decoding the 7-byte address produced by `ax25_address` yields
exactly the original label. -/
theorem C7_address_roundtrip (L : List Nat) (f : Bool)
    (hlen : L.length = 6) (halnum : ∀ c ∈ L, isUpperAlnum c = true) :
    decodeAddr (ax25_address L f) = L := by
  have hupper : pyUpper L = L := by
    rw [pyUpper]
    conv_rhs => rw [← List.map_id L]
    refine List.map_congr_left fun c hc => ?_
    have := isUpperAlnum_range c (halnum c hc)
    have hno : ¬ (97 ≤ c ∧ c ≤ 122) := by omega
    simp [hno]
  have hljust : pyLjust 6 L = L := by
    rw [pyLjust, hlen]
    simp
  have hpadded : (pyUpper (pyLjust 6 L)).take 6 = L := by
    rw [hljust, hupper, ← hlen, List.take_length]
  rw [ax25_address]
  simp only [hpadded]
  have htake6 : (L ++ [32]).take 6 = L := by rw [← hlen, List.take_left]
  rw [htake6, decodeAddr]
  have htake6' : (L.map (fun c => c * 2) ++
      [(if f then ((L ++ [32]).getD 6 0 * 2 ||| 0x60) ||| 1
        else (L ++ [32]).getD 6 0 * 2 ||| 0x60)]).take 6 = L.map (fun c => c * 2) := by
    have hml : (L.map (fun c => c * 2)).length = 6 := by rw [List.length_map, hlen]
    rw [← hml, List.take_left]
  rw [htake6', List.map_map]
  have hid : L.map ((fun c => c / 2) ∘ fun c => c * 2) = L := by
    conv_rhs => rw [← List.map_id L]
    refine List.map_congr_left fun c _ => ?_
    simp only [Function.comp_apply, id_eq]
    omega
  rw [hid]
  exact pyStrip_of_no_space L fun c hc => isUpperAlnum_not_space c (halnum c hc)

theorem head?_dropWhile_false (p : Nat → Bool) :
    ∀ (l : List Nat) (c : Nat), (l.dropWhile p).head? = some c → p c = false
  | [], c => by simp
  | a :: t, c => by
    intro h
    by_cases ha : p a
    · rw [List.dropWhile_cons_of_pos ha] at h
      exact head?_dropWhile_false p t c h
    · rw [List.dropWhile_cons_of_neg ha, List.head?_cons, Option.some.injEq] at h
      rw [← h]
      exact Bool.of_not_eq_true ha

theorem mem_takeWhile_true (p : Nat → Bool) :
    ∀ (l : List Nat) (c : Nat), c ∈ l.takeWhile p → p c = true
  | [], c => by simp
  | a :: t, c => by
    intro h
    by_cases ha : p a
    · rw [List.takeWhile_cons_of_pos ha] at h
      rcases List.mem_cons.mp h with h | h
      · rw [h]; exact ha
      · exact mem_takeWhile_true p t c h
    · rw [List.takeWhile_cons_of_neg ha] at h
      simp at h

theorem pyStrip_decomp (l : List Nat) :
    ∃ s t, l = s ++ pyStrip l ++ t ∧
      (∀ x ∈ s, isPySpace x = true) ∧ (∀ x ∈ t, isPySpace x = true) := by
  set l1 := l.dropWhile isPySpace with hl1
  set d2 := l1.reverse.dropWhile isPySpace with hd2
  refine ⟨l.takeWhile isPySpace, (l1.reverse.takeWhile isPySpace).reverse, ?_, ?_, ?_⟩
  · have h1 : l = l.takeWhile isPySpace ++ l1 := (List.takeWhile_append_dropWhile _ _).symm
    have h2 : l1.reverse = l1.reverse.takeWhile isPySpace ++ d2 :=
      (List.takeWhile_append_dropWhile _ _).symm
    have h3 : l1 = d2.reverse ++ (l1.reverse.takeWhile isPySpace).reverse := by
      have := congrArg List.reverse h2
      rw [List.reverse_reverse, List.reverse_append] at this
      exact this
    have hp : pyStrip l = d2.reverse := by rw [pyStrip, ← hl1, ← hd2]
    rw [hp, List.append_assoc]
    conv_lhs => rw [h1, h3]
  · intro x hx
    exact mem_takeWhile_true _ _ _ hx
  · intro x hx
    rw [List.mem_reverse] at hx
    exact mem_takeWhile_true _ _ _ hx

theorem pyStrip_head (l : List Nat) (c : Nat) (h : (pyStrip l).head? = some c) :
    isPySpace c = false := by
  rw [pyStrip, List.head?_reverse] at h
  set l1 := l.dropWhile isPySpace with hl1
  set d2 := l1.reverse.dropWhile isPySpace with hd2
  have hne : d2 ≠ [] := by
    intro hnil
    rw [hnil] at h
    simp at h
  have h2 : l1.reverse = l1.reverse.takeWhile isPySpace ++ d2 :=
    (List.takeWhile_append_dropWhile _ _).symm
  have h3 : l1.head? = some c := by
    rw [← List.getLast?_reverse, h2, List.getLast?_append_of_ne_nil _ hne, h]
  exact head?_dropWhile_false isPySpace l c h3

theorem pyStrip_getLast (l : List Nat) (c : Nat) (h : (pyStrip l).getLast? = some c) :
    isPySpace c = false := by
  rw [pyStrip, List.getLast?_reverse] at h
  exact head?_dropWhile_false isPySpace _ c h

/-- C8 counterexample: address decoding does not merely trim trailing
whitespace; Python `str.strip()` also removes leading whitespace. On the
7-byte field `[64, 130, 130, 130, 130, 130, 96]` (which unpacks to the
characters `" AAAAA"`), the source's decode yields `"AAAAA"` while the
trailing-only trim described by the claim yields `" AAAAA"`. -/
theorem C8_counterexample :
    decodeAddr [64, 130, 130, 130, 130, 130, 96] ≠
      decodeAddrTrailingOnly [64, 130, 130, 130, 130, 130, 96] := by
  decide

/-- C8 (amended): address decoding is defined for every 7-byte input and
never fails: it right-shifts each of the first 6 bytes by one bit, converts
each result to a character, and trims leading and trailing whitespace,
possibly yielding an empty string. Formally: the decoded label is the
right-shifted character sequence with a whitespace block removed from each
end, its own ends are not whitespace, and an all-padding field decodes to
the empty string. -/
theorem C8_decode_total_and_trimmed :
    (∀ field : List Nat, field.length = 7 →
      ∃ s t, (field.take 6).map (fun c => c / 2) = s ++ decodeAddr field ++ t ∧
        (∀ x ∈ s, isPySpace x = true) ∧ (∀ x ∈ t, isPySpace x = true)) ∧
    (∀ field : List Nat, ∀ c : Nat,
      (decodeAddr field).head? = some c → isPySpace c = false) ∧
    (∀ field : List Nat, ∀ c : Nat,
      (decodeAddr field).getLast? = some c → isPySpace c = false) ∧
    decodeAddr (List.replicate 7 64) = [] := by
  refine ⟨?_, ?_, ?_, ?_⟩
  · intro field _
    obtain ⟨s, t, heq, hs, ht⟩ := pyStrip_decomp ((field.take 6).map (fun c => c / 2))
    exact ⟨s, t, by rw [decodeAddr]; exact heq, hs, ht⟩
  · intro field c h
    exact pyStrip_head _ c h
  · intro field c h
    exact pyStrip_getLast _ c h
  · decide

/-- C8 witness: the amended theorem applied at the concrete field
`[64, 130, 130, 130, 130, 130, 96]`, whose decoded label is `"AAAAA"`. -/
theorem C8_witness :
    (decodeAddr [64, 130, 130, 130, 130, 130, 96]).head? = some 65 ∧
      isPySpace 65 = false :=
  ⟨by decide, C8_decode_total_and_trimmed.2.1 [64, 130, 130, 130, 130, 130, 96] 65 (by decide)⟩

/-- C7 witness: the round-trip theorem applied to the concrete label
`"ABC123"` with the last-address flag set. -/
theorem C7_witness :
    ([65, 66, 67, 49, 50, 51] : List Nat).length = 6 ∧
      (∀ c ∈ ([65, 66, 67, 49, 50, 51] : List Nat), isUpperAlnum c = true) ∧
      decodeAddr (ax25_address [65, 66, 67, 49, 50, 51] true) = [65, 66, 67, 49, 50, 51] :=
  ⟨by decide, by decide, C7_address_roundtrip [65, 66, 67, 49, 50, 51] true (by decide) (by decide)⟩

/-! ## Receiver data model (rx.py lines 121-240)

Python dictionaries (`active_transfers` and each transfer's `chunks`) are
modelled as insertion-ordered association lists: assignment to an existing
key replaces its value in place, assignment to a fresh key appends. -/

def alookup {α β : Type} [DecidableEq α] : List (α × β) → α → Option β
  | [], _ => none
  | (k, v) :: rest, key => if k = key then some v else alookup rest key

def dinsert {α β : Type} [DecidableEq α] : List (α × β) → α → β → List (α × β)
  | [], key, val => [(key, val)]
  | (k, v) :: rest, key, val =>
    if k = key then (k, val) :: rest else (k, v) :: dinsert rest key val

/-- One reassembly context (an entry of `active_transfers`, rx.py lines
199-205): the chunk mapping, the highest sequence number seen (`-1` at
creation), the source callsign and the derived output names. -/
structure Transfer where
  chunks : List (Nat × List Nat)
  highest : Int
  src : List Nat
  filename : List Nat
  ssdvname : List Nat
deriving DecidableEq

abbrev Transfers : Type := List (List Nat × Transfer)

/-- What the receive loop reports for one finalized frame. -/
inductive Outcome where
  | discarded
  | started
  | stored
  | duplicate
deriving DecidableEq

/-- Code points of a string literal. -/
def strBytes (s : String) : List Nat :=
  s.data.map Char.toNat

/-- Model of Python `int.from_bytes(bs, 'big')`. -/
def fromBytesBE (l : List Nat) : Nat :=
  l.foldl (fun acc b => acc * 256 + b) 0

/-- Chunk-length normalization (rx.py lines 186-191): a chunk shorter than
`MAX_INFO` is right-padded with zero bytes (`ljust(MAX_INFO, b'\x00')`), a
longer chunk is truncated to its first `MAX_INFO` bytes. -/
def normalizeChunk (maxInfo : Nat) (c : List Nat) : List Nat :=
  if c.length < maxInfo then c ++ List.replicate (maxInfo - c.length) 0
  else if c.length > maxInfo then c.take maxInfo
  else c

/-- The derived output filename (rx.py lines 193-195). -/
def mkFilename (src_call file_id : List Nat) : List Nat :=
  strBytes (r"received_from_") ++ (if src_call = [] then strBytes (r"UNKNOWN") else src_call) ++
    strBytes (r"_") ++ (if file_id = [] then strBytes (r"XX") else file_id) ++ strBytes (r".bin")

/-- The derived post-processing output name (rx.py lines 193-196). -/
def mkSsdvname (src_call file_id : List Nat) : List Nat :=
  strBytes (r"ssdv_from_") ++ (if src_call = [] then strBytes (r"UNKNOWN") else src_call) ++
    strBytes (r"_") ++ (if file_id = [] then strBytes (r"XX") else file_id) ++ strBytes (r".jpg")

/-- The reassembly step for one validated chunk (rx.py lines 184-218):
normalize the chunk, create the context on first contact with this file
identifier, then store the chunk unless its sequence number is already
present. -/
def acceptChunk (maxInfo : Nat) (T : Transfers) (file_id src_call : List Nat)
    (frame_num : Nat) (chunk0 : List Nat) : Transfers × Outcome :=
  let chunk := normalizeChunk maxInfo chunk0
  let filename := mkFilename src_call file_id
  let ssdvname := mkSsdvname src_call file_id
  let T1 := if (alookup T file_id).isNone then
      dinsert T file_id ⟨[], -1, src_call, filename, ssdvname⟩
    else T
  match alookup T1 file_id with
  | none => (T1, Outcome.discarded)
  | some tr =>
    if (alookup tr.chunks frame_num).isNone then
      (dinsert T1 file_id
        { tr with
          chunks := dinsert tr.chunks frame_num chunk,
          highest := max tr.highest (frame_num : Int) },
       if (alookup T file_id).isNone then Outcome.started else Outcome.stored)
    else (T1, Outcome.duplicate)

/-- Finalization of a transport frame (rx.py lines 150-218): unescape the
collected buffer, discard unless the command byte is 0x00, the decoded frame
has at least 18 bytes, bytes 14..15 equal the sentinel `b'\x03\xf0'` and the
payload holds a sequence number; otherwise hand the chunk to the reassembly
step. -/
def processFrameE (maxInfo : Nat) (cb : Nat) (fdata : List Nat) (T : Transfers) :
    Transfers × Outcome :=
  let raw := unescape_kiss fdata
  if cb ≠ 0 then (T, Outcome.discarded)
  else if raw.length < 18 then (T, Outcome.discarded)
  else if (raw.drop 14).take 2 ≠ [3, 240] then (T, Outcome.discarded)
  else
    let payload := raw.drop 16
    if payload.length < 2 then (T, Outcome.discarded)
    else
      acceptChunk maxInfo T (decodeAddr (raw.take 7)) (decodeAddr ((raw.drop 7).take 7))
        (fromBytesBE (payload.take 2)) (payload.drop 2)

/-- The frame-parser state (rx.py lines 126-128): whether a delimiter opened
a frame, the captured command byte, the collected escaped payload, plus the
reassembly map. -/
structure RxState where
  in_frame : Bool
  command_byte : Option Nat
  frame_data : List Nat
  transfers : Transfers
deriving DecidableEq

def initRxState : RxState :=
  ⟨false, none, [], []⟩

/-- One byte of the receive loop (rx.py lines 144-240): outside a frame only
a delimiter does anything (opening a frame and clearing the buffer); inside
a frame a delimiter finalizes the buffer when it is non-empty and a command
byte was captured, the first non-delimiter byte becomes the command byte and
later bytes are appended to the buffer. -/
def rxStep (maxInfo : Nat) (s : RxState) (b : Nat) : RxState :=
  if s.in_frame = false then
    if b = FEND then { s with in_frame := true, frame_data := [], command_byte := none }
    else s
  else
    if b = FEND then
      let transfers' :=
        if s.frame_data.length > 0 then
          match s.command_byte with
          | some cb => (processFrameE maxInfo cb s.frame_data s.transfers).1
          | none => s.transfers
        else s.transfers
      { s with in_frame := false, transfers := transfers' }
    else
      match s.command_byte with
      | none => { s with command_byte := some b }
      | some _ => { s with frame_data := s.frame_data ++ [b] }

def runRx (maxInfo : Nat) (bytes : List Nat) (s : RxState) : RxState :=
  bytes.foldl (rxStep maxInfo) s

/-- The output artifact written after a frame (rx.py lines 220-222): for
each sequence number up to the watermark, the stored chunk when present and
a full block of zero bytes otherwise. -/
def artifact (maxInfo : Nat) (t : Transfer) : List Nat :=
  (((List.range (t.highest + 1).toNat).map
    (fun i => (alookup t.chunks i).getD (List.replicate maxInfo 0)))).flatten

/-! ## Transmitter (tx.py lines 144-171) -/

inductive TxError where
  | overflow
deriving DecidableEq

/-- Model of `frame_num.to_bytes(2, 'big')` (tx.py line 156): two big-endian bytes,
raising `OverflowError` when the value needs more than two bytes. -/
def toBytesBE2 (n : Nat) : Option (List Nat) :=
  if n < 65536 then some [n / 256, n % 256] else none

/-- The link frame `dest_addr + src_addr + b'\x03\xf0' + payload` (tx.py line 157). -/
def mkLinkFrame (dest src payload : List Nat) : List Nat :=
  dest ++ src ++ [3, 240] ++ payload

/-- The transport frame `FEND + b'\x00' + kiss_escape(frame) + FEND` (tx.py
line 158). -/
def mkKissFrame (frame : List Nat) : List Nat :=
  [FEND] ++ [0] ++ kiss_escape frame ++ [FEND]

/-- The transmit loop (tx.py lines 144-171): while data remains, take the
next chunk of at most `maxInfo` bytes, build and emit one KISS frame whose
payload is the 2-byte big-endian frame number followed by the chunk.
A failing `to_bytes` aborts with `OverflowError`. (The source validates
`16 ≤ maxInfo`, so the `maxInfo = 0` corner of this model is never used.) -/
def txLoop (dest src : List Nat) (maxInfo : Nat) :
    Nat → List Nat → Except TxError (List (List Nat))
  | _, [] => Except.ok []
  | frame_num, b :: rest =>
    let chunk := (b :: rest).take maxInfo
    match toBytesBE2 frame_num with
    | none => Except.error TxError.overflow
    | some seqBytes =>
      match txLoop dest src maxInfo (frame_num + 1) (rest.drop (maxInfo - 1)) with
      | Except.error e => Except.error e
      | Except.ok frames =>
        Except.ok (mkKissFrame (mkLinkFrame dest src (seqBytes ++ chunk)) :: frames)
termination_by _ data => data.length
decreasing_by
  simp only [List.length_drop, List.length_cons]
  omega

/-- The whole transmission of a file (tx.py lines 144-171, starting from
`frame_num = 0`). -/
def txFrames (dest src : List Nat) (maxInfo : Nat) (data : List Nat) :
    Except TxError (List (List Nat)) :=
  txLoop dest src maxInfo 0 data

/-! ## Association-list lemmas -/

theorem alookup_dinsert_self {α β : Type} [DecidableEq α] :
    ∀ (l : List (α × β)) (k : α) (v : β), alookup (dinsert l k v) k = some v
  | [], k, v => by simp [alookup, dinsert]
  | (k0, v0) :: rest, k, v => by
    by_cases h : k0 = k
    · simp [alookup, dinsert, h]
    · simp only [dinsert, if_neg h, alookup, if_neg h]
      exact alookup_dinsert_self rest k v

theorem alookup_dinsert_ne {α β : Type} [DecidableEq α] :
    ∀ (l : List (α × β)) (k key : α) (v : β), k ≠ key →
      alookup (dinsert l k v) key = alookup l key
  | [], k, key, v => by
    intro h
    simp [alookup, dinsert, h]
  | (k0, v0) :: rest, k, key, v => by
    intro h
    by_cases h0 : k0 = k
    · subst h0
      simp [alookup, dinsert, h]
    · simp only [dinsert, if_neg h0, alookup]
      by_cases h1 : k0 = key
      · simp [h1]
      · simp only [if_neg h1]
        exact alookup_dinsert_ne rest k key v h

theorem length_dinsert_present {α β : Type} [DecidableEq α] :
    ∀ (l : List (α × β)) (k : α) (v : β), (alookup l k).isSome →
      (dinsert l k v).length = l.length
  | [], k, v => by simp [alookup]
  | (k0, v0) :: rest, k, v => by
    intro h
    by_cases h0 : k0 = k
    · simp [dinsert, h0]
    · simp only [alookup, if_neg h0] at h
      simp only [dinsert, if_neg h0, List.length_cons]
      rw [length_dinsert_present rest k v h]

theorem length_dinsert_absent {α β : Type} [DecidableEq α] :
    ∀ (l : List (α × β)) (k : α) (v : β), (alookup l k).isNone →
      (dinsert l k v).length = l.length + 1
  | [], k, v => by simp [dinsert]
  | (k0, v0) :: rest, k, v => by
    intro h
    by_cases h0 : k0 = k
    · simp [alookup, h0] at h
    · simp only [alookup, if_neg h0] at h
      simp only [dinsert, if_neg h0, List.length_cons]
      rw [length_dinsert_absent rest k v h]

/-! ## Validation predicate and duplicate test -/

/-- The three header checks a finalized transport frame must pass (rx.py
lines 155-167): data-frame command byte, at least 18 decoded bytes, sentinel
Control+Protocol-ID. -/
def frameChecks (cb : Nat) (fdata : List Nat) : Prop :=
  cb = 0 ∧ 18 ≤ (unescape_kiss fdata).length ∧
    ((unescape_kiss fdata).drop 14).take 2 = [3, 240]

instance frameChecks.dec (cb : Nat) (fdata : List Nat) : Decidable (frameChecks cb fdata) := by
  unfold frameChecks
  infer_instance

/-- Whether the sequence number carried by a (decoded) frame is already
present in the reassembly context it addresses. -/
def dupFrame (fdata : List Nat) (T : Transfers) : Bool :=
  match alookup T (decodeAddr ((unescape_kiss fdata).take 7)) with
  | some t => (alookup t.chunks (fromBytesBE (((unescape_kiss fdata).drop 16).take 2))).isSome
  | none => false

/-! ## Behaviour of `processFrameE` on the three kinds of frames -/

theorem processFrameE_not_checks (m cb : Nat) (fdata : List Nat) (T : Transfers)
    (h : ¬ frameChecks cb fdata) :
    processFrameE m cb fdata T = (T, Outcome.discarded) := by
  by_cases hcb : cb = 0
  · by_cases hlen : (unescape_kiss fdata).length < 18
    · simp [processFrameE, hlen]
    · have hsent : ¬ ((unescape_kiss fdata).drop 14).take 2 = [3, 240] := by
        intro hs
        exact h ⟨hcb, by omega, hs⟩
      simp [processFrameE, hcb, hlen, hsent]
  · simp [processFrameE, hcb]

theorem processFrameE_valid_accept (m cb : Nat) (fdata : List Nat) (T : Transfers)
    (h : frameChecks cb fdata) :
    processFrameE m cb fdata T =
      acceptChunk m T (decodeAddr ((unescape_kiss fdata).take 7))
        (decodeAddr (((unescape_kiss fdata).drop 7).take 7))
        (fromBytesBE (((unescape_kiss fdata).drop 16).take 2))
        (((unescape_kiss fdata).drop 16).drop 2) := by
  obtain ⟨hcb, hlen, hsent⟩ := h
  have hlen' : ¬ (unescape_kiss fdata).length < 18 := by omega
  have hpay : ¬ ((unescape_kiss fdata).length - 16 < 2) := by omega
  simp [processFrameE, hcb, hlen', hsent, hpay, List.drop_drop]

theorem acceptChunk_dup (m : Nat) (T : Transfers) (fid src : List Nat) (fn : Nat)
    (c0 : List Nat) (t : Transfer) (ht : alookup T fid = some t)
    (hdup : (alookup t.chunks fn).isSome) :
    acceptChunk m T fid src fn c0 = (T, Outcome.duplicate) := by
  rcases Option.isSome_iff_exists.mp hdup with ⟨c, hc⟩
  simp [acceptChunk, ht, hc]

theorem acceptChunk_new_context (m : Nat) (T : Transfers) (fid src : List Nat)
    (fn : Nat) (c0 : List Nat) (habs : alookup T fid = none) :
    acceptChunk m T fid src fn c0 =
      (dinsert (dinsert T fid ⟨[], -1, src, mkFilename src fid, mkSsdvname src fid⟩)
        fid
        ⟨[(fn, normalizeChunk m c0)], fn, src, mkFilename src fid, mkSsdvname src fid⟩,
       Outcome.started) := by
  have hmax : max (-1 : Int) (fn : Int) = (fn : Int) := by
    rw [max_eq_right]
    omega
  simp [acceptChunk, habs, alookup_dinsert_self, alookup, hmax, dinsert]

theorem acceptChunk_store (m : Nat) (T : Transfers) (fid src : List Nat) (fn : Nat)
    (c0 : List Nat) (t : Transfer) (ht : alookup T fid = some t)
    (hnew : alookup t.chunks fn = none) :
    acceptChunk m T fid src fn c0 =
      (dinsert T fid
        { t with
          chunks := dinsert t.chunks fn (normalizeChunk m c0),
          highest := max t.highest (fn : Int) },
       Outcome.stored) := by
  simp [acceptChunk, ht, hnew]

/-! ## Chunk-size normalization (C5) -/

theorem normalizeChunk_length (m : Nat) (c : List Nat) : (normalizeChunk m c).length = m := by
  rw [normalizeChunk]
  by_cases h1 : c.length < m
  · simp only [if_pos h1, List.length_append, List.length_replicate]
    omega
  · by_cases h2 : c.length > m
    · simp only [if_neg h1, if_pos h2, List.length_take]
      omega
    · simp only [if_neg h1, if_neg h2]
      omega

theorem normalizeChunk_pad (m : Nat) (c : List Nat) (h : c.length ≤ m) :
    normalizeChunk m c = c ++ List.replicate (m - c.length) 0 := by
  rw [normalizeChunk]
  by_cases h1 : c.length < m
  · rw [if_pos h1]
  · have he : m - c.length = 0 := by omega
    have h2 : ¬ c.length > m := by omega
    rw [if_neg h1, if_neg h2, he]
    simp

theorem normalizeChunk_trunc (m : Nat) (c : List Nat) (h : m ≤ c.length) :
    normalizeChunk m c = c.take m := by
  rw [normalizeChunk]
  by_cases h2 : c.length > m
  · have h1 : ¬ c.length < m := by omega
    rw [if_neg h1, if_pos h2]
  · have he : m = c.length := by omega
    have h1 : ¬ c.length < m := by omega
    rw [if_neg h1, if_neg h2, he, List.take_length]

/-- C5: Every chunk stored in a reassembly context has length exactly the
configured maximum: a shorter chunk is zero-padded on the right, a longer
chunk is truncated to its first `maxInfo` bytes, and whenever the
reassembly step stores a chunk it stores exactly the normalized bytes. -/
theorem C5_stored_chunks_normalized :
    (∀ (m : Nat) (c : List Nat), (normalizeChunk m c).length = m) ∧
    (∀ (m : Nat) (c : List Nat), c.length ≤ m →
      normalizeChunk m c = c ++ List.replicate (m - c.length) 0) ∧
    (∀ (m : Nat) (c : List Nat), m ≤ c.length → normalizeChunk m c = c.take m) ∧
    (∀ (m : Nat) (T : Transfers) (fid src : List Nat) (fn : Nat) (c0 : List Nat),
      ((acceptChunk m T fid src fn c0).2 = Outcome.started ∨
        (acceptChunk m T fid src fn c0).2 = Outcome.stored) →
      ∃ t, alookup (acceptChunk m T fid src fn c0).1 fid = some t ∧
        alookup t.chunks fn = some (normalizeChunk m c0)) := by
  refine ⟨normalizeChunk_length, normalizeChunk_pad, normalizeChunk_trunc, ?_⟩
  intro m T fid src fn c0 _
  rcases h1 : alookup T fid with _ | t
  · rw [acceptChunk_new_context m T fid src fn c0 h1]
    refine ⟨_, alookup_dinsert_self _ _ _, ?_⟩
    simp [alookup]
  · rcases h2 : alookup t.chunks fn with _ | c
    · rw [acceptChunk_store m T fid src fn c0 t h1 h2]
      exact ⟨_, alookup_dinsert_self _ _ _, alookup_dinsert_self _ _ _⟩
    · rename_i houtcome
      rw [acceptChunk_dup m T fid src fn c0 t h1 (by rw [h2]; rfl)] at houtcome
      simp at houtcome

/-- C5 witness: the padding clause of the theorem applied to the chunk
`[1, 2]` with configured maximum 4. -/
theorem C5_witness :
    ([1, 2] : List Nat).length ≤ 4 ∧
      normalizeChunk 4 [1, 2] = [1, 2] ++ List.replicate (4 - ([1, 2] : List Nat).length) 0 :=
  ⟨by decide, C5_stored_chunks_normalized.2.1 4 [1, 2] (by decide)⟩

/-! ## Duplicate handling (C6) -/

/-- C6: A valid frame whose sequence number is already present in its
context leaves the reassembly state entirely unchanged — in particular the
stored bytes for that sequence number and the watermark — and the event is
reported as a duplicate. -/
theorem C6_duplicate_first_writer_wins (m cb : Nat) (fdata : List Nat) (T : Transfers)
    (t : Transfer)
    (hchecks : frameChecks cb fdata)
    (ht : alookup T (decodeAddr ((unescape_kiss fdata).take 7)) = some t)
    (hdup : (alookup t.chunks
      (fromBytesBE (((unescape_kiss fdata).drop 16).take 2))).isSome) :
    processFrameE m cb fdata T = (T, Outcome.duplicate) := by
  rw [processFrameE_valid_accept m cb fdata T hchecks]
  exact acceptChunk_dup m T _ _ _ _ t ht hdup

/-- A concrete valid 18-byte link frame (six `'A'` characters in both
address fields, sentinel, sequence number 0, empty chunk), in its escaped
transport form. -/
def exFrame : List Nat :=
  kiss_escape (List.replicate 14 130 ++ [3, 240] ++ [0, 0])

/-- The reassembly state after the receiver accepts `exFrame` once. -/
def exT1 : Transfers :=
  (processFrameE 16 0 exFrame []).1

/-- C6 witness: replaying `exFrame` against the state that already stores
it is reported as a duplicate and changes nothing. -/
theorem C6_witness :
    frameChecks 0 exFrame ∧ processFrameE 16 0 exFrame exT1 = (exT1, Outcome.duplicate) :=
  ⟨by decide,
    C6_duplicate_first_writer_wins 16 0 exFrame exT1
      ⟨[(0, List.replicate 16 0)], 0, strBytes (r"AAAAAA"),
        strBytes (r"received_from_AAAAAA_AAAAAA.bin"),
        strBytes (r"ssdv_from_AAAAAA_AAAAAA.jpg")⟩
      (by decide) (by decide) (by decide)⟩

/-! ## Frame validation (C4) -/

/-- C4 counterexample: the claimed equivalence "a finalized frame creates or
mutates a context if and only if the three header checks pass" fails on a
concrete duplicate frame: `exFrame` passes every check, yet replaying it
against `exT1` mutates nothing. -/
theorem C4_counterexample :
    ¬ (((processFrameE 16 0 exFrame exT1).1 ≠ exT1) ↔ frameChecks 0 exFrame) := by
  decide

/-- C4 (amended): a finalized transport frame creates or mutates a
reassembly context if and only if its command byte is 0x00, its unescaped
payload is at least 18 bytes, bytes 14..15 equal the sentinel 0x03 0xF0,
and its sequence number is not already stored in the addressed context; a
frame failing one of the three header checks is discarded with the state
untouched, and no frame ever terminates the (total) receive step. -/
theorem C4_validation_gate (m cb : Nat) (fdata : List Nat) (T : Transfers) :
    (¬ frameChecks cb fdata → processFrameE m cb fdata T = (T, Outcome.discarded)) ∧
    (frameChecks cb fdata → dupFrame fdata T = true →
      processFrameE m cb fdata T = (T, Outcome.duplicate)) ∧
    (frameChecks cb fdata → dupFrame fdata T = false →
      (processFrameE m cb fdata T).1 ≠ T ∧
        (processFrameE m cb fdata T).2 ≠ Outcome.discarded) := by
  refine ⟨fun h => processFrameE_not_checks m cb fdata T h, ?_, ?_⟩
  · intro hchecks hdup
    rw [dupFrame] at hdup
    rcases ht : alookup T (decodeAddr ((unescape_kiss fdata).take 7)) with _ | t
    · rw [ht] at hdup
      exact absurd hdup (by simp)
    · rw [ht] at hdup
      have hdup' : (alookup t.chunks
          (fromBytesBE (((unescape_kiss fdata).drop 16).take 2))).isSome = true := hdup
      rw [processFrameE_valid_accept m cb fdata T hchecks]
      exact acceptChunk_dup m T _ _ _ _ t ht hdup'
  · intro hchecks hdup
    rw [processFrameE_valid_accept m cb fdata T hchecks]
    rw [dupFrame] at hdup
    rcases ht : alookup T (decodeAddr ((unescape_kiss fdata).take 7)) with _ | t
    · rw [acceptChunk_new_context m T _ _ _ _ ht]
      refine ⟨?_, by simp⟩
      intro heq0
      have heq : dinsert (dinsert T (decodeAddr ((unescape_kiss fdata).take 7))
          ⟨[], -1, decodeAddr (((unescape_kiss fdata).drop 7).take 7),
            mkFilename (decodeAddr (((unescape_kiss fdata).drop 7).take 7))
              (decodeAddr ((unescape_kiss fdata).take 7)),
            mkSsdvname (decodeAddr (((unescape_kiss fdata).drop 7).take 7))
              (decodeAddr ((unescape_kiss fdata).take 7))⟩)
          (decodeAddr ((unescape_kiss fdata).take 7))
          ⟨[(fromBytesBE (((unescape_kiss fdata).drop 16).take 2),
              normalizeChunk m (((unescape_kiss fdata).drop 16).drop 2))],
            (fromBytesBE (((unescape_kiss fdata).drop 16).take 2) : Nat),
            decodeAddr (((unescape_kiss fdata).drop 7).take 7),
            mkFilename (decodeAddr (((unescape_kiss fdata).drop 7).take 7))
              (decodeAddr ((unescape_kiss fdata).take 7)),
            mkSsdvname (decodeAddr (((unescape_kiss fdata).drop 7).take 7))
              (decodeAddr ((unescape_kiss fdata).take 7))⟩ = T :=
        heq0
      have hlen := congrArg List.length heq
      have habs : (alookup T (decodeAddr ((unescape_kiss fdata).take 7))).isNone := by
        rw [ht]; rfl
      rw [length_dinsert_present _ _ _ (by rw [alookup_dinsert_self]; rfl),
        length_dinsert_absent _ _ _ habs] at hlen
      omega
    · rw [ht] at hdup
      have hdup' : (alookup t.chunks
          (fromBytesBE (((unescape_kiss fdata).drop 16).take 2))).isSome = false := hdup
      have hnone : alookup t.chunks
          (fromBytesBE (((unescape_kiss fdata).drop 16).take 2)) = none := by
        rcases hl : alookup t.chunks
            (fromBytesBE (((unescape_kiss fdata).drop 16).take 2)) with _ | c
        · rfl
        · rw [hl] at hdup'
          simp at hdup'
      rw [acceptChunk_store m T _ _ _ _ t ht hnone]
      refine ⟨?_, by simp⟩
      intro heq0
      have heq : dinsert T (decodeAddr ((unescape_kiss fdata).take 7))
          { t with
            chunks := dinsert t.chunks
              (fromBytesBE (((unescape_kiss fdata).drop 16).take 2))
              (normalizeChunk m (((unescape_kiss fdata).drop 16).drop 2)),
            highest := max t.highest
              ((fromBytesBE (((unescape_kiss fdata).drop 16).take 2) : Nat) : Int) } = T :=
        heq0
      have hself := alookup_dinsert_self T (decodeAddr ((unescape_kiss fdata).take 7))
        { t with
          chunks := dinsert t.chunks
            (fromBytesBE (((unescape_kiss fdata).drop 16).take 2))
            (normalizeChunk m (((unescape_kiss fdata).drop 16).drop 2)),
          highest := max t.highest
            ((fromBytesBE (((unescape_kiss fdata).drop 16).take 2) : Nat) : Int) }
      rw [heq, ht] at hself
      have hchunks := congrArg (fun tr => tr.chunks.length) (Option.some.inj hself)
      simp only at hchunks
      have habs : (alookup t.chunks
          (fromBytesBE (((unescape_kiss fdata).drop 16).take 2))).isNone := by
        rw [hnone]; rfl
      rw [length_dinsert_absent _ _ _ habs] at hchunks
      omega

/-- C4 witness: the amended theorem applied to `exFrame` arriving at the
empty reassembly state: the checks pass, the frame is no duplicate, and the
state is mutated. -/
theorem C4_witness :
    frameChecks 0 exFrame ∧ dupFrame exFrame [] = false ∧
      (processFrameE 16 0 exFrame ([] : Transfers)).1 ≠ ([] : Transfers) :=
  ⟨by decide, by decide,
    ((C4_validation_gate 16 0 exFrame []).2.2 (by decide) (by decide)).1⟩

/-! ## Escaped payloads never contain the frame delimiter -/

theorem escByte_ne_fend (b x : Nat) (hx : x ∈ escByte b) : ¬ x = FEND := by
  rw [escByte] at hx
  by_cases h1 : b = FESC
  · rw [if_pos h1] at hx
    intro hxe
    subst hxe
    exact absurd hx (by decide)
  · by_cases h2 : b = FEND
    · rw [if_neg h1, if_pos h2] at hx
      intro hxe
      subst hxe
      exact absurd hx (by decide)
    · rw [if_neg h1, if_neg h2] at hx
      simp at hx
      subst hx
      exact h2

theorem kiss_escape_ne_fend (l : List Nat) (x : Nat) (hx : x ∈ kiss_escape l) : ¬ x = FEND := by
  induction l with
  | nil => simp [kiss_escape, pyReplaceByte] at hx
  | cons b rest ih =>
    rw [kiss_escape_cons, List.mem_append] at hx
    rcases hx with h | h
    · exact escByte_ne_fend b x h
    · exact ih h

theorem length_le_kiss_escape (l : List Nat) : l.length ≤ (kiss_escape l).length := by
  induction l with
  | nil => simp [kiss_escape, pyReplaceByte]
  | cons b rest ih =>
    rw [kiss_escape_cons, List.length_append, List.length_cons]
    have : 1 ≤ (escByte b).length := by
      rw [escByte]
      by_cases h1 : b = FESC
      · rw [if_pos h1]
        simp
      · rw [if_neg h1]
        by_cases h2 : b = FEND
        · rw [if_pos h2]
          simp
        · rw [if_neg h2]
          simp
    omega

theorem kiss_escape_ne_nil (l : List Nat) (h : l ≠ []) : kiss_escape l ≠ [] := by
  intro hc
  have h1 := length_le_kiss_escape l
  rw [hc] at h1
  simp only [List.length_nil, Nat.le_zero] at h1
  exact h (List.eq_nil_of_length_eq_zero h1)

/-! ## Feeding one KISS frame through the byte-at-a-time parser -/

theorem runRx_cons (m b : Nat) (bs : List Nat) (s : RxState) :
    runRx m (b :: bs) s = runRx m bs (rxStep m s b) := rfl

theorem runRx_append (m : Nat) (a b : List Nat) (s : RxState) :
    runRx m (a ++ b) s = runRx m b (runRx m a s) := by
  simp [runRx, List.foldl_append]

theorem rxStep_open (m : Nat) (s : RxState) (h : s.in_frame = false) :
    rxStep m s FEND = { s with in_frame := true, frame_data := [], command_byte := none } := by
  simp [rxStep, h]

theorem rxStep_command (m b : Nat) (s : RxState) (hin : s.in_frame = true)
    (hcb : s.command_byte = none) (hb : ¬ b = FEND) :
    rxStep m s b = { s with command_byte := some b } := by
  simp [rxStep, hin, hcb, hb]

theorem rxStep_data (m b cb : Nat) (s : RxState) (hin : s.in_frame = true)
    (hcb : s.command_byte = some cb) (hb : ¬ b = FEND) :
    rxStep m s b = { s with frame_data := s.frame_data ++ [b] } := by
  simp [rxStep, hin, hcb, hb]

theorem runRx_collect (m cb : Nat) : ∀ (bs : List Nat) (s : RxState),
    (∀ x ∈ bs, ¬ x = FEND) → s.in_frame = true → s.command_byte = some cb →
    runRx m bs s = { s with frame_data := s.frame_data ++ bs }
  | [], s, _, _, _ => by simp [runRx]
  | b :: bs, s, hbs, hin, hcb => by
    rw [runRx_cons, rxStep_data m b cb s hin hcb (hbs b (by simp))]
    have h2 := runRx_collect m cb bs { s with frame_data := s.frame_data ++ [b] }
      (fun x hx => hbs x (by simp [hx])) (by simp [hin]) (by simp [hcb])
    rw [h2]
    simp

theorem rxStep_close (m cb : Nat) (s : RxState) (hin : s.in_frame = true)
    (hcb : s.command_byte = some cb) (hne : s.frame_data ≠ []) :
    rxStep m s FEND =
      { s with in_frame := false,
               transfers := (processFrameE m cb s.frame_data s.transfers).1 } := by
  have hl : s.frame_data.length > 0 := List.length_pos.mpr hne
  simp [rxStep, hin, hcb, hl]

/-- Feeding one complete KISS frame (delimiter, command byte, escaped
payload, delimiter) to the parser from any between-frames state finalizes
exactly that payload. -/
theorem runRx_kissframe (m cb : Nat) (raw : List Nat) (s : RxState)
    (hin : s.in_frame = false) (hcb : ¬ cb = FEND) (hraw : raw ≠ []) :
    runRx m ([FEND] ++ [cb] ++ kiss_escape raw ++ [FEND]) s =
      ⟨false, some cb, kiss_escape raw,
        (processFrameE m cb (kiss_escape raw) s.transfers).1⟩ := by
  rw [show [FEND] ++ [cb] ++ kiss_escape raw ++ [FEND] =
    FEND :: cb :: (kiss_escape raw ++ [FEND]) by simp]
  rw [runRx_cons, rxStep_open m s hin, runRx_cons,
    rxStep_command m cb _ rfl rfl hcb]
  rw [runRx_append]
  rw [runRx_collect m cb (kiss_escape raw) _ (fun x hx => kiss_escape_ne_fend raw x hx) rfl rfl]
  have hne : kiss_escape raw ≠ [] := kiss_escape_ne_nil raw hraw
  have hsingle : ∀ st : RxState, runRx m [FEND] st = rxStep m st FEND := fun st => rfl
  rw [hsingle]
  rw [rxStep_close m cb _ rfl rfl (by simpa using hne)]
  simp

/-- Finalizing an escaped, well-formed link frame as the transmitter builds
it (command byte 0, 7-byte address fields, sentinel, 2-byte sequence
number) reaches the reassembly step with the decoded fields. -/
theorem processFrameE_link (m : Nat) (dest src seq chunk : List Nat) (T : Transfers)
    (hdest : dest.length = 7) (hsrc : src.length = 7) (hseq : seq.length = 2) :
    processFrameE m 0 (kiss_escape (mkLinkFrame dest src (seq ++ chunk))) T =
      acceptChunk m T (decodeAddr dest) (decodeAddr src) (fromBytesBE seq) chunk := by
  have hraw : unescape_kiss (kiss_escape (mkLinkFrame dest src (seq ++ chunk))) =
      mkLinkFrame dest src (seq ++ chunk) := unescape_escape _
  have hassoc : mkLinkFrame dest src (seq ++ chunk) =
      (dest ++ src) ++ ([3, 240] ++ (seq ++ chunk)) := by
    rw [mkLinkFrame]
    simp
  have hlen14 : (dest ++ src).length = 14 := by
    rw [List.length_append, hdest, hsrc]
  have hdrop14 : (mkLinkFrame dest src (seq ++ chunk)).drop 14 = [3, 240] ++ (seq ++ chunk) := by
    rw [hassoc, ← hlen14, List.drop_left]
  have hdrop16 : (mkLinkFrame dest src (seq ++ chunk)).drop 16 = seq ++ chunk := by
    have h2 : ([3, 240] ++ (seq ++ chunk)).drop 2 = seq ++ chunk := by
      rw [show (2 : Nat) = ([3, 240] : List Nat).length from rfl, List.drop_left]
    rw [show (16 : Nat) = 14 + 2 from rfl, ← List.drop_drop, hdrop14, h2]
  have hlen : (mkLinkFrame dest src (seq ++ chunk)).length = 18 + chunk.length := by
    rw [mkLinkFrame]
    simp [hdest, hsrc, hseq]
    omega
  have hchecks : frameChecks 0 (kiss_escape (mkLinkFrame dest src (seq ++ chunk))) := by
    refine ⟨rfl, ?_, ?_⟩
    · rw [hraw, hlen]
      omega
    · rw [hraw, hdrop14]
      rw [show (2 : Nat) = ([3, 240] : List Nat).length from rfl, List.take_left]
  rw [processFrameE_valid_accept m 0 _ T hchecks, hraw]
  have hassoc2 : mkLinkFrame dest src (seq ++ chunk) =
      dest ++ (src ++ ([3, 240] ++ (seq ++ chunk))) := by
    rw [mkLinkFrame]
    simp
  have htake7 : (mkLinkFrame dest src (seq ++ chunk)).take 7 = dest := by
    rw [hassoc2, ← hdest]
    exact List.take_left dest _
  have hdrop7 : ((mkLinkFrame dest src (seq ++ chunk)).drop 7).take 7 = src := by
    have hd : (mkLinkFrame dest src (seq ++ chunk)).drop 7 =
        src ++ ([3, 240] ++ (seq ++ chunk)) := by
      rw [hassoc2, ← hdest, List.drop_left]
    rw [hd, ← hsrc, List.take_left]
  have hseqpart : ((mkLinkFrame dest src (seq ++ chunk)).drop 16).take 2 = seq := by
    rw [hdrop16, ← hseq, List.take_left]
  have hchunkpart : ((mkLinkFrame dest src (seq ++ chunk)).drop 16).drop 2 = chunk := by
    rw [hdrop16, ← hseq, List.drop_left]
  rw [htake7, hdrop7, hseqpart, hchunkpart]

/-! ## The stored-chunk-length invariant and the artifact layout (C3) -/

/-- Every chunk stored in any reassembly context has the configured length. -/
def ChunksLenInv (m : Nat) (T : Transfers) : Prop :=
  ∀ fid t, alookup T fid = some t → ∀ k c, alookup t.chunks k = some c → c.length = m

theorem chunksLenInv_nil (m : Nat) : ChunksLenInv m [] := by
  intro fid t h
  simp [alookup] at h

theorem chunksLenInv_dinsert (m : Nat) (T : Transfers) (fid : List Nat) (t : Transfer)
    (hT : ChunksLenInv m T) (ht : ∀ k c, alookup t.chunks k = some c → c.length = m) :
    ChunksLenInv m (dinsert T fid t) := by
  intro fid2 t2 h2 k c hc
  by_cases he : fid = fid2
  · subst he
    rw [alookup_dinsert_self] at h2
    rw [← Option.some.inj h2] at hc
    exact ht k c hc
  · rw [alookup_dinsert_ne _ _ _ _ he] at h2
    exact hT fid2 t2 h2 k c hc

theorem chunksLenInv_accept (m : Nat) (T : Transfers) (fid src : List Nat) (fn : Nat)
    (c0 : List Nat) (hT : ChunksLenInv m T) :
    ChunksLenInv m (acceptChunk m T fid src fn c0).1 := by
  rcases h1 : alookup T fid with _ | t
  · rw [acceptChunk_new_context m T fid src fn c0 h1]
    apply chunksLenInv_dinsert
    · apply chunksLenInv_dinsert m T fid _ hT
      intro k c hc
      simp [alookup] at hc
    · intro k c hc
      simp only [alookup] at hc
      by_cases hk : fn = k
      · rw [if_pos hk] at hc
        rw [← Option.some.inj hc]
        exact normalizeChunk_length m c0
      · rw [if_neg hk] at hc
        simp [alookup] at hc
  · rcases h2 : alookup t.chunks fn with _ | c
    · rw [acceptChunk_store m T fid src fn c0 t h1 h2]
      apply chunksLenInv_dinsert m T fid _ hT
      intro k c hc
      by_cases hk : fn = k
      · subst hk
        rw [alookup_dinsert_self] at hc
        rw [← Option.some.inj hc]
        exact normalizeChunk_length m c0
      · rw [alookup_dinsert_ne _ _ _ _ hk] at hc
        exact hT fid t h1 k c hc
    · rw [acceptChunk_dup m T fid src fn c0 t h1 (by rw [h2]; rfl)]
      exact hT

theorem chunksLenInv_process (m cb : Nat) (fdata : List Nat) (T : Transfers)
    (hT : ChunksLenInv m T) : ChunksLenInv m (processFrameE m cb fdata T).1 := by
  by_cases hc : frameChecks cb fdata
  · rw [processFrameE_valid_accept m cb fdata T hc]
    exact chunksLenInv_accept m T _ _ _ _ hT
  · rw [processFrameE_not_checks m cb fdata T hc]
    exact hT

theorem rxStep_transfers (m b : Nat) (s : RxState) :
    (rxStep m s b).transfers = s.transfers ∨
      ∃ cb, (rxStep m s b).transfers = (processFrameE m cb s.frame_data s.transfers).1 := by
  rw [rxStep]
  by_cases h1 : s.in_frame = false
  · rw [if_pos h1]
    by_cases hb : b = FEND
    · rw [if_pos hb]
      exact Or.inl rfl
    · rw [if_neg hb]
      exact Or.inl rfl
  · rw [if_neg h1]
    by_cases hb : b = FEND
    · rw [if_pos hb]
      by_cases hl : s.frame_data.length > 0
      · rcases hc : s.command_byte with _ | cb
        · exact Or.inl (by simp [hl, hc])
        · exact Or.inr ⟨cb, by simp [hl, hc]⟩
      · exact Or.inl (by simp [hl])
    · rw [if_neg hb]
      rcases hc : s.command_byte with _ | cb
      · exact Or.inl (by simp [hc])
      · exact Or.inl (by simp [hc])

theorem chunksLenInv_step (m b : Nat) (s : RxState) (h : ChunksLenInv m s.transfers) :
    ChunksLenInv m (rxStep m s b).transfers := by
  rcases rxStep_transfers m b s with he | ⟨cb, he⟩ <;> rw [he]
  · exact h
  · exact chunksLenInv_process m cb _ _ h

theorem chunksLenInv_run (m : Nat) : ∀ (bytes : List Nat) (s : RxState),
    ChunksLenInv m s.transfers → ChunksLenInv m (runRx m bytes s).transfers
  | [], _, h => h
  | b :: bs, s, h => by
    rw [runRx_cons]
    exact chunksLenInv_run m bs _ (chunksLenInv_step m b s h)

theorem flatten_fixed_length (m : Nat) (f : Nat → List Nat) (hf : ∀ i, (f i).length = m) :
    ∀ n : Nat, (((List.range n).map f).flatten).length = n * m
  | 0 => by simp
  | n + 1 => by
    rw [List.range_succ, List.map_append, List.flatten_append]
    rw [List.length_append, flatten_fixed_length m f hf n]
    simp [hf n]
    ring

theorem artifact_length (m : Nat) (t : Transfer)
    (h : ∀ k c, alookup t.chunks k = some c → c.length = m) :
    (artifact m t).length = (t.highest + 1).toNat * m := by
  rw [artifact]
  apply flatten_fixed_length
  intro i
  rcases h2 : alookup t.chunks i with _ | c
  · simp
  · simp [h i c h2]

/-! ## Running three transmitter-shaped frames through the receiver -/

theorem runRx_three (m : Nat) (dest src s0 s1 s2 c0 c1 c2 : List Nat)
    (hdest : dest.length = 7) (hsrc : src.length = 7)
    (hs0 : s0.length = 2) (hs1 : s1.length = 2) (hs2 : s2.length = 2) :
    (runRx m (mkKissFrame (mkLinkFrame dest src (s0 ++ c0)) ++
      mkKissFrame (mkLinkFrame dest src (s1 ++ c1)) ++
      mkKissFrame (mkLinkFrame dest src (s2 ++ c2))) initRxState).transfers =
    (acceptChunk m
      (acceptChunk m
        (acceptChunk m [] (decodeAddr dest) (decodeAddr src) (fromBytesBE s0) c0).1
        (decodeAddr dest) (decodeAddr src) (fromBytesBE s1) c1).1
      (decodeAddr dest) (decodeAddr src) (fromBytesBE s2) c2).1 := by
  have hne : ∀ sq c : List Nat, sq.length = 2 → mkLinkFrame dest src (sq ++ c) ≠ [] := by
    intro sq c hsq hnil
    have hl := congrArg List.length hnil
    rw [mkLinkFrame] at hl
    simp [hdest, hsrc, hsq] at hl
  have hone : ∀ (f : List Nat) (s : RxState), s.in_frame = false → f ≠ [] →
      runRx m (mkKissFrame f) s =
        ⟨false, some 0, kiss_escape f, (processFrameE m 0 (kiss_escape f) s.transfers).1⟩ :=
    fun f s hin hf => runRx_kissframe m 0 f s hin (by decide) hf
  rw [runRx_append m (mkKissFrame (mkLinkFrame dest src (s0 ++ c0)) ++
      mkKissFrame (mkLinkFrame dest src (s1 ++ c1)))
    (mkKissFrame (mkLinkFrame dest src (s2 ++ c2))) initRxState]
  rw [runRx_append m (mkKissFrame (mkLinkFrame dest src (s0 ++ c0)))
    (mkKissFrame (mkLinkFrame dest src (s1 ++ c1))) initRxState]
  rw [hone (mkLinkFrame dest src (s0 ++ c0)) initRxState rfl (hne s0 c0 hs0)]
  rw [hone (mkLinkFrame dest src (s1 ++ c1)) _ rfl (hne s1 c1 hs1)]
  rw [hone (mkLinkFrame dest src (s2 ++ c2)) _ rfl (hne s2 c2 hs2)]
  show (processFrameE m 0 (kiss_escape (mkLinkFrame dest src (s2 ++ c2)))
    (processFrameE m 0 (kiss_escape (mkLinkFrame dest src (s1 ++ c1)))
      (processFrameE m 0 (kiss_escape (mkLinkFrame dest src (s0 ++ c0)))
        initRxState.transfers).1).1).1 = _
  rw [processFrameE_link m dest src s0 c0 _ hdest hsrc hs0,
    processFrameE_link m dest src s1 c1 _ hdest hsrc hs1,
    processFrameE_link m dest src s2 c2 _ hdest hsrc hs2]
  rfl

theorem dinsert_dinsert_nil {α β : Type} [DecidableEq α] (k : α) (v w : β) :
    dinsert (dinsert ([] : List (α × β)) k v) k w = [(k, w)] := by
  simp [dinsert]

/-- Accepting three chunks with pairwise distinct sequence numbers into an
empty reassembly map yields a single context holding exactly those three
normalized chunks, with the watermark at their maximum. -/
theorem accept_three (m : Nat) (fid srcl : List Nat) (f0 f1 f2 : Nat) (c0 c1 c2 : List Nat)
    (h01 : ¬ f0 = f1) (h02 : ¬ f0 = f2) (h12 : ¬ f1 = f2) :
    (acceptChunk m (acceptChunk m (acceptChunk m [] fid srcl f0 c0).1
      fid srcl f1 c1).1 fid srcl f2 c2).1 =
    [(fid, ⟨[(f0, normalizeChunk m c0), (f1, normalizeChunk m c1),
             (f2, normalizeChunk m c2)],
            max (max ((f0 : Nat) : Int) ((f1 : Nat) : Int)) ((f2 : Nat) : Int),
            srcl, mkFilename srcl fid, mkSsdvname srcl fid⟩)] := by
  rw [acceptChunk_new_context m [] fid srcl f0 c0 rfl, dinsert_dinsert_nil]
  have hl1 : alookup [(fid, (⟨[(f0, normalizeChunk m c0)], (f0 : Nat), srcl,
      mkFilename srcl fid, mkSsdvname srcl fid⟩ : Transfer))] fid =
      some ⟨[(f0, normalizeChunk m c0)], (f0 : Nat), srcl,
        mkFilename srcl fid, mkSsdvname srcl fid⟩ := by
    simp [alookup]
  have hc1 : alookup ([(f0, normalizeChunk m c0)] : List (Nat × List Nat)) f1 = none := by
    simp [alookup, h01]
  rw [acceptChunk_store m _ fid srcl f1 c1 _ hl1 hc1]
  have hd1 : dinsert [(fid, (⟨[(f0, normalizeChunk m c0)], (f0 : Nat), srcl,
      mkFilename srcl fid, mkSsdvname srcl fid⟩ : Transfer))] fid
      ⟨dinsert [(f0, normalizeChunk m c0)] f1 (normalizeChunk m c1),
        max ((f0 : Nat) : Int) ((f1 : Nat) : Int), srcl,
        mkFilename srcl fid, mkSsdvname srcl fid⟩ =
      [(fid, ⟨[(f0, normalizeChunk m c0), (f1, normalizeChunk m c1)],
        max ((f0 : Nat) : Int) ((f1 : Nat) : Int), srcl,
        mkFilename srcl fid, mkSsdvname srcl fid⟩)] := by
    simp [dinsert, h01]
  rw [hd1]
  have hl2 : alookup [(fid, (⟨[(f0, normalizeChunk m c0), (f1, normalizeChunk m c1)],
      max ((f0 : Nat) : Int) ((f1 : Nat) : Int), srcl,
      mkFilename srcl fid, mkSsdvname srcl fid⟩ : Transfer))] fid =
      some ⟨[(f0, normalizeChunk m c0), (f1, normalizeChunk m c1)],
        max ((f0 : Nat) : Int) ((f1 : Nat) : Int), srcl,
        mkFilename srcl fid, mkSsdvname srcl fid⟩ := by
    simp [alookup]
  have hc2 : alookup ([(f0, normalizeChunk m c0), (f1, normalizeChunk m c1)] :
      List (Nat × List Nat)) f2 = none := by
    simp [alookup, h02, h12]
  rw [acceptChunk_store m _ fid srcl f2 c2 _ hl2 hc2]
  simp [dinsert, h01, h02, h12]

/-- C3: After every chunk accepted into a reassembly context, the output
artifact (by construction the concatenation over sequence numbers
`0..watermark` of the stored chunk when present and a block of `maxInfo`
zero bytes otherwise, rx.py lines 220-222) has length
`(watermark + 1) * maxInfo`, for every context reached from the initial
state by any byte stream; in particular, after valid frames with sequence
numbers 0, 1, 3 the artifact has length `4 * maxInfo` and slot 2 is all
zero bytes. -/
theorem C3_artifact_layout :
    (∀ (m : Nat) (stream : List Nat) (fid : List Nat) (t : Transfer),
      alookup (runRx m stream initRxState).transfers fid = some t →
      (artifact m t).length = (t.highest + 1).toNat * m) ∧
    (∀ (m : Nat) (dest src c0 c1 c3 : List Nat),
      dest.length = 7 → src.length = 7 →
      ∃ t, alookup (runRx m
          (mkKissFrame (mkLinkFrame dest src ([0, 0] ++ c0)) ++
            mkKissFrame (mkLinkFrame dest src ([0, 1] ++ c1)) ++
            mkKissFrame (mkLinkFrame dest src ([0, 3] ++ c3)))
          initRxState).transfers (decodeAddr dest) = some t ∧
        (artifact m t).length = 4 * m ∧
        ((artifact m t).drop (2 * m)).take m = List.replicate m 0) := by
  constructor
  · intro m stream fid t ht
    have hinv := chunksLenInv_run m stream initRxState (chunksLenInv_nil m)
    exact artifact_length m t (hinv fid t ht)
  · intro m dest src c0 c1 c3 hdest hsrc
    have hrun := runRx_three m dest src [0, 0] [0, 1] [0, 3] c0 c1 c3 hdest hsrc rfl rfl rfl
    rw [show fromBytesBE [0, 0] = 0 from rfl, show fromBytesBE [0, 1] = 1 from rfl,
      show fromBytesBE [0, 3] = 3 from rfl] at hrun
    rw [accept_three m (decodeAddr dest) (decodeAddr src) 0 1 3 c0 c1 c3
      (by decide) (by decide) (by decide)] at hrun
    refine ⟨⟨[(0, normalizeChunk m c0), (1, normalizeChunk m c1), (3, normalizeChunk m c3)],
      max (max ((0 : Nat) : Int) ((1 : Nat) : Int)) ((3 : Nat) : Int),
      decodeAddr src, mkFilename (decodeAddr src) (decodeAddr dest),
      mkSsdvname (decodeAddr src) (decodeAddr dest)⟩, ?_, ?_, ?_⟩
    · rw [hrun]
      simp [alookup]
    · have hart : artifact m
          (⟨[(0, normalizeChunk m c0), (1, normalizeChunk m c1), (3, normalizeChunk m c3)],
            max (max ((0 : Nat) : Int) ((1 : Nat) : Int)) ((3 : Nat) : Int),
            decodeAddr src, mkFilename (decodeAddr src) (decodeAddr dest),
            mkSsdvname (decodeAddr src) (decodeAddr dest)⟩ : Transfer) =
          normalizeChunk m c0 ++ (normalizeChunk m c1 ++
            (List.replicate m 0 ++ (normalizeChunk m c3 ++ []))) := by
        have hh : ((max (max ((0 : Nat) : Int) ((1 : Nat) : Int)) ((3 : Nat) : Int) + 1).toNat)
            = 4 := by decide
        have hr : List.range 4 = [0, 1, 2, 3] := rfl
        rw [artifact]
        simp only [hh, hr]
        simp [alookup]
      rw [hart]
      simp [normalizeChunk_length]
      ring
    · have hart : artifact m
          (⟨[(0, normalizeChunk m c0), (1, normalizeChunk m c1), (3, normalizeChunk m c3)],
            max (max ((0 : Nat) : Int) ((1 : Nat) : Int)) ((3 : Nat) : Int),
            decodeAddr src, mkFilename (decodeAddr src) (decodeAddr dest),
            mkSsdvname (decodeAddr src) (decodeAddr dest)⟩ : Transfer) =
          normalizeChunk m c0 ++ (normalizeChunk m c1 ++
            (List.replicate m 0 ++ (normalizeChunk m c3 ++ []))) := by
        have hh : ((max (max ((0 : Nat) : Int) ((1 : Nat) : Int)) ((3 : Nat) : Int) + 1).toNat)
            = 4 := by decide
        have hr : List.range 4 = [0, 1, 2, 3] := rfl
        rw [artifact]
        simp only [hh, hr]
        simp [alookup]
      rw [hart]
      rw [show normalizeChunk m c0 ++ (normalizeChunk m c1 ++
          (List.replicate m 0 ++ (normalizeChunk m c3 ++ []))) =
        (normalizeChunk m c0 ++ normalizeChunk m c1) ++
          (List.replicate m 0 ++ (normalizeChunk m c3 ++ [])) by simp]
      have h2m : (normalizeChunk m c0 ++ normalizeChunk m c1).length = 2 * m := by
        rw [List.length_append, normalizeChunk_length, normalizeChunk_length]
        omega
      rw [List.drop_left' h2m, List.take_left' (List.length_replicate m 0)]

/-- C3 witness: the scenario clause applied with chunk size 2, concrete
7-byte address fields and chunks `[1]`, `[2, 3, 4]`, `[5]`. -/
theorem C3_witness :
    (List.replicate 7 130 : List Nat).length = 7 ∧
      (∃ t, alookup (runRx 2
          (mkKissFrame (mkLinkFrame (List.replicate 7 130) (List.replicate 7 130)
            ([0, 0] ++ [1])) ++
            mkKissFrame (mkLinkFrame (List.replicate 7 130) (List.replicate 7 130)
              ([0, 1] ++ [2, 3, 4])) ++
            mkKissFrame (mkLinkFrame (List.replicate 7 130) (List.replicate 7 130)
              ([0, 3] ++ [5])))
          initRxState).transfers (decodeAddr (List.replicate 7 130)) = some t ∧
        (artifact 2 t).length = 4 * 2 ∧
        ((artifact 2 t).drop (2 * 2)).take 2 = List.replicate 2 0) :=
  ⟨by decide,
    C3_artifact_layout.2 2 (List.replicate 7 130) (List.replicate 7 130)
      [1] [2, 3, 4] [5] (by decide) (by decide)⟩

/-! ## Transmit-loop lemmas (C10, C2) -/

theorem normalizeChunk_eq_self (m : Nat) (c : List Nat) (h : c.length = m) :
    normalizeChunk m c = c := by
  rw [normalizeChunk_pad m c (Nat.le_of_eq h), h]
  simp

theorem txLoop_nil (dest src : List Nat) (m fn : Nat) :
    txLoop dest src m fn [] = Except.ok [] := by
  simp [txLoop]

theorem txLoop_cons (dest src : List Nat) (m : Nat) (hm : 0 < m) (fn : Nat)
    (data : List Nat) (hne : data ≠ []) (hfn : fn < 65536) :
    txLoop dest src m fn data =
      match txLoop dest src m (fn + 1) (data.drop m) with
      | Except.error e => Except.error e
      | Except.ok frames =>
        Except.ok (mkKissFrame (mkLinkFrame dest src
          ([fn / 256, fn % 256] ++ data.take m)) :: frames) := by
  rcases List.exists_cons_of_ne_nil hne with ⟨b, rest, rfl⟩
  have hdrop : rest.drop (m - 1) = (b :: rest).drop m := by
    rcases m with _ | k
    · omega
    · rw [Nat.succ_sub_one]
      rfl
  simp only [txLoop]
  rw [show toBytesBE2 fn = some [fn / 256, fn % 256] from by simp [toBytesBE2, hfn]]
  rw [hdrop]

theorem txLoop_ok (dest src : List Nat) (m : Nat) (hm : 0 < m) :
    ∀ (data : List Nat) (fn : Nat), fn * m + data.length ≤ 65536 * m →
      ∃ fs, txLoop dest src m fn data = Except.ok fs
  | data, fn, h => by
    rcases eq_or_ne data [] with rfl | hne
    · exact ⟨[], txLoop_nil dest src m fn⟩
    · have hpos : 0 < data.length := List.length_pos.mpr hne
      have hfn : fn < 65536 := by
        by_contra hge
        push_neg at hge
        have h1 : 65536 * m ≤ fn * m := Nat.mul_le_mul_right m hge
        omega
      have hexp : (fn + 1) * m = fn * m + m := by ring
      have h4 : (fn + 1) * m ≤ 65536 * m := Nat.mul_le_mul_right m (by omega)
      have hrec := txLoop_ok dest src m hm (data.drop m) (fn + 1)
        (by rw [List.length_drop]; omega)
      obtain ⟨fs, hfs⟩ := hrec
      exact ⟨mkKissFrame (mkLinkFrame dest src ([fn / 256, fn % 256] ++ data.take m)) :: fs,
        by rw [txLoop_cons dest src m hm fn data hne hfn, hfs]⟩
termination_by data _ _ => data.length
decreasing_by
  rw [List.length_drop]
  omega

theorem txLoop_overflow (dest src : List Nat) (m : Nat) (hm : 0 < m) :
    ∀ (data : List Nat) (fn : Nat), fn ≤ 65536 → 65536 * m < fn * m + data.length →
      txLoop dest src m fn data = Except.error TxError.overflow
  | data, fn, hfn, h => by
    have hne : data ≠ [] := by
      intro hnil
      subst hnil
      have h1 : fn * m ≤ 65536 * m := Nat.mul_le_mul_right m hfn
      simp at h
      omega
    have hpos : 0 < data.length := List.length_pos.mpr hne
    rcases Nat.lt_or_ge fn 65536 with hlt | hge
    · have hexp : (fn + 1) * m = fn * m + m := by ring
      have hlen : m < data.length := by
        by_contra hle
        push_neg at hle
        have h3 : (fn + 1) * m ≤ 65536 * m := Nat.mul_le_mul_right m (by omega)
        omega
      have hrec := txLoop_overflow dest src m hm (data.drop m) (fn + 1)
        (by omega) (by rw [List.length_drop]; omega)
      rw [txLoop_cons dest src m hm fn data hne hlt, hrec]
    · have hfn' : fn = 65536 := by omega
      rcases List.exists_cons_of_ne_nil hne with ⟨b, rest, rfl⟩
      simp only [txLoop]
      rw [show toBytesBE2 fn = none from by simp [toBytesBE2, hfn']]
termination_by data _ _ _ => data.length
decreasing_by
  rw [List.length_drop]
  omega

/-- C10: a file longer than `65536 * maxInfo` bytes makes the transmit loop
fail with `OverflowError` when it encodes frame number 65536 into two
big-endian bytes; a file of at most 65536 chunks is transmitted without any
such error, every sequence number fitting in two bytes. -/
theorem C10_sequence_overflow (dest src data : List Nat) (m : Nat) (hm : 0 < m) :
    (65536 * m < data.length → txFrames dest src m data = Except.error TxError.overflow) ∧
    (data.length ≤ 65536 * m → ∃ fs, txFrames dest src m data = Except.ok fs) := by
  constructor
  · intro h
    rw [txFrames]
    exact txLoop_overflow dest src m hm data 0 (by omega) (by simpa using h)
  · intro h
    rw [txFrames]
    exact txLoop_ok dest src m hm data 0 (by simpa using h)

/-- C10 witness: a 20-byte file with chunk size 16 (at most 65536 chunks)
transmits without overflow. -/
theorem C10_witness :
    0 < 16 ∧ (List.replicate 20 7 : List Nat).length ≤ 65536 * 16 ∧
      ∃ fs, txFrames [] [] 16 (List.replicate 20 7) = Except.ok fs :=
  ⟨by decide, by decide,
    (C10_sequence_overflow [] [] (List.replicate 20 7) 16 (by decide)).2 (by decide)⟩

/-- C2: Transmitting any 250-byte file with chunk maximum 100 emits exactly
3 KISS frames whose chunks have lengths 100, 100 and 50 and whose 2-byte
big-endian sequence numbers are 0, 1, 2; the receiver, fed those 3 frames
in order, holds a single reassembly context whose output artifact is
exactly 300 bytes: the original 250 bytes followed by 50 zero bytes of
padding in the third slot. -/
theorem C2_250_byte_file (dest src data : List Nat)
    (hdest : dest.length = 7) (hsrc : src.length = 7) (hdata : data.length = 250) :
    txFrames dest src 100 data = Except.ok
      [mkKissFrame (mkLinkFrame dest src ([0, 0] ++ data.take 100)),
       mkKissFrame (mkLinkFrame dest src ([0, 1] ++ (data.drop 100).take 100)),
       mkKissFrame (mkLinkFrame dest src ([0, 2] ++ data.drop 200))] ∧
    (data.take 100).length = 100 ∧ ((data.drop 100).take 100).length = 100 ∧
    (data.drop 200).length = 50 ∧
    (∃ t, alookup (runRx 100
        (mkKissFrame (mkLinkFrame dest src ([0, 0] ++ data.take 100)) ++
          mkKissFrame (mkLinkFrame dest src ([0, 1] ++ (data.drop 100).take 100)) ++
          mkKissFrame (mkLinkFrame dest src ([0, 2] ++ data.drop 200)))
        initRxState).transfers (decodeAddr dest) = some t ∧
      artifact 100 t = data ++ List.replicate 50 0 ∧
      (artifact 100 t).length = 300 ∧
      (artifact 100 t).take 250 = data ∧
      (artifact 100 t).drop 250 = List.replicate 50 0) := by
  have hl0 : (data.take 100).length = 100 := by
    rw [List.length_take]
    omega
  have hl1 : ((data.drop 100).take 100).length = 100 := by
    rw [List.length_take, List.length_drop]
    omega
  have hl2 : (data.drop 200).length = 50 := by
    rw [List.length_drop]
    omega
  refine ⟨?_, hl0, hl1, hl2, ?_⟩
  · -- transmit side
    have hne0 : data ≠ [] := by
      intro hnil
      rw [hnil] at hdata
      simp at hdata
    have hne1 : data.drop 100 ≠ [] := by
      intro hnil
      have := congrArg List.length hnil
      rw [List.length_drop, hdata] at this
      simp at this
    have hne2 : data.drop 200 ≠ [] := by
      intro hnil
      have := congrArg List.length hnil
      rw [List.length_drop, hdata] at this
      simp at this
    have hdd1 : (data.drop 100).drop 100 = data.drop 200 := by
      rw [List.drop_drop]
    have hdd2 : (data.drop 200).drop 100 = [] := by
      apply List.eq_nil_of_length_eq_zero
      rw [List.length_drop, List.length_drop]
      omega
    have htk2 : (data.drop 200).take 100 = data.drop 200 :=
      List.take_of_length_le (by omega)
    rw [txFrames]
    rw [txLoop_cons dest src 100 (by norm_num) 0 data hne0 (by norm_num)]
    rw [txLoop_cons dest src 100 (by norm_num) 1 (data.drop 100) hne1 (by norm_num)]
    rw [hdd1]
    rw [txLoop_cons dest src 100 (by norm_num) 2 (data.drop 200) hne2 (by norm_num)]
    rw [hdd2, txLoop_nil, htk2]
  · -- receive side
    have hrun := runRx_three 100 dest src [0, 0] [0, 1] [0, 2]
      (data.take 100) ((data.drop 100).take 100) (data.drop 200) hdest hsrc rfl rfl rfl
    rw [show fromBytesBE [0, 0] = 0 from rfl, show fromBytesBE [0, 1] = 1 from rfl,
      show fromBytesBE [0, 2] = 2 from rfl] at hrun
    rw [accept_three 100 (decodeAddr dest) (decodeAddr src) 0 1 2
      (data.take 100) ((data.drop 100).take 100) (data.drop 200)
      (by decide) (by decide) (by decide)] at hrun
    have hn0 : normalizeChunk 100 (data.take 100) = data.take 100 :=
      normalizeChunk_eq_self 100 _ hl0
    have hn1 : normalizeChunk 100 ((data.drop 100).take 100) = (data.drop 100).take 100 :=
      normalizeChunk_eq_self 100 _ hl1
    have hn2 : normalizeChunk 100 (data.drop 200) = data.drop 200 ++ List.replicate 50 0 := by
      rw [normalizeChunk_pad 100 _ (by omega), hl2]
    have hart : artifact 100
        (⟨[(0, normalizeChunk 100 (data.take 100)),
            (1, normalizeChunk 100 ((data.drop 100).take 100)),
            (2, normalizeChunk 100 (data.drop 200))],
          max (max ((0 : Nat) : Int) ((1 : Nat) : Int)) ((2 : Nat) : Int),
          decodeAddr src, mkFilename (decodeAddr src) (decodeAddr dest),
          mkSsdvname (decodeAddr src) (decodeAddr dest)⟩ : Transfer) =
        data ++ List.replicate 50 0 := by
      have hh : ((max (max ((0 : Nat) : Int) ((1 : Nat) : Int)) ((2 : Nat) : Int)
          + 1).toNat) = 3 := by decide
      have hr : List.range 3 = [0, 1, 2] := rfl
      rw [artifact]
      simp only [hh, hr]
      simp only [List.map_cons, List.map_nil, alookup]
      norm_num
      rw [hn0, hn1, hn2]
      rw [show data.take 100 ++ ((data.drop 100).take 100 ++
          (data.drop 200 ++ List.replicate 50 0)) =
        (data.take 100 ++ ((data.drop 100).take 100 ++ data.drop 200)) ++
          List.replicate 50 0 by simp]
      have hsplit : data.take 100 ++ ((data.drop 100).take 100 ++ data.drop 200) = data := by
        rw [show data.drop 200 = (data.drop 100).drop 100 by rw [List.drop_drop]]
        rw [List.take_append_drop, List.take_append_drop]
      rw [hsplit]
    refine ⟨⟨[(0, normalizeChunk 100 (data.take 100)),
        (1, normalizeChunk 100 ((data.drop 100).take 100)),
        (2, normalizeChunk 100 (data.drop 200))],
      max (max ((0 : Nat) : Int) ((1 : Nat) : Int)) ((2 : Nat) : Int),
      decodeAddr src, mkFilename (decodeAddr src) (decodeAddr dest),
      mkSsdvname (decodeAddr src) (decodeAddr dest)⟩, ?_, hart, ?_, ?_, ?_⟩
    · rw [hrun]
      simp [alookup]
    · rw [hart, List.length_append, List.length_replicate, hdata]
    · rw [hart]
      exact List.take_left' hdata
    · rw [hart]
      exact List.drop_left' hdata

/-- C2 witness: the theorem applied to a concrete 250-byte file of sevens
with concrete 7-byte address fields. -/
theorem C2_witness :
    (List.replicate 7 130 : List Nat).length = 7 ∧
      (List.replicate 250 7 : List Nat).length = 250 ∧
      (∃ t, alookup (runRx 100
          (mkKissFrame (mkLinkFrame (List.replicate 7 130) (List.replicate 7 130)
            ([0, 0] ++ (List.replicate 250 7 : List Nat).take 100)) ++
            mkKissFrame (mkLinkFrame (List.replicate 7 130) (List.replicate 7 130)
              ([0, 1] ++ ((List.replicate 250 7 : List Nat).drop 100).take 100)) ++
            mkKissFrame (mkLinkFrame (List.replicate 7 130) (List.replicate 7 130)
              ([0, 2] ++ (List.replicate 250 7 : List Nat).drop 200)))
          initRxState).transfers (decodeAddr (List.replicate 7 130)) = some t ∧
        artifact 100 t = List.replicate 250 7 ++ List.replicate 50 0 ∧
        (artifact 100 t).length = 300 ∧
        (artifact 100 t).take 250 = List.replicate 250 7 ∧
        (artifact 100 t).drop 250 = List.replicate 50 0) :=
  ⟨by decide, by rw [List.length_replicate],
    (C2_250_byte_file (List.replicate 7 130) (List.replicate 7 130) (List.replicate 250 7)
      (by decide) (by decide) (by rw [List.length_replicate])).2.2.2.2⟩

end File2afsk
